import Mathlib

/-!
A shallow embedding of the invite-code issuance/redemption engine of the
Linke backend (Go, gorm/gin), covering:

* `internal/model/invite_code.go` — the `InviteCode` record and its
  predicates `IsActive`, `IsExhausted`, `CanBeUsed`, `IsDeleted`;
* the `InviteCodeService` (`GenerateInviteCode`, `CreateInviteCode`,
  `GetInviteCodeByCode`, `ValidateInviteCode`, `UseInviteCode`,
  `UpdateInviteCodeStatus`, `DeleteInviteCode`);
* `internal/handler/invite_code.go` — the handler-level request binding
  (`min=1,max=100` on `max_uses`, `max=255` on `description`,
  `oneof=active disabled` on status updates);
* `internal/service/auth.go` — `AuthService.Register`.

The database is modelled as an explicit `Store` value threaded through the
operations.  gorm's soft-delete default scope (queries exclude rows whose
`DeletedAt` is set) is modelled by a `deleted` flag that lookups filter on.
gorm transactions are modelled by a `Tx` carrying the base (committed)
store and the transaction's view: `Rollback` returns the base store,
`Commit` returns the view.  Fallible store writes are modelled by boolean
success parameters (`saveOk`, `createOk`, `commitOk`, `dbOk`); the
`crypto/rand` byte source is modelled by an explicit stream of byte lists.
-/

namespace Linke

/-- Status constants from `internal/model/invite_code.go`. -/
def statusActive : String := "active"

/-- `InviteCodeStatusUsed` from `internal/model/invite_code.go`. -/
def statusUsed : String := "used"

/-- `InviteCodeStatusDisabled` from `internal/model/invite_code.go`. -/
def statusDisabled : String := "disabled"

/-- The `InviteCode` record (`internal/model/invite_code.go`).  Go's `int`
fields `MaxUses` and `UsedCount` are modelled as `Int`; the gorm
`DeletedAt` soft-delete marker is modelled as the flag `deleted`.
Timestamps and the opaque `Metadata` blob carry no claim-relevant
information and are omitted. -/
structure InviteCode where
  id : Nat
  code : String
  createdByID : Nat
  status : String
  maxUses : Int
  usedCount : Int
  description : String
  deleted : Bool
deriving Repr, DecidableEq

/-- `InviteCode.IsDeleted`: the gorm `DeletedAt.Valid` check. -/
def InviteCode.isDeleted (c : InviteCode) : Bool := c.deleted

/-- `InviteCode.IsActive`: status must be `active` and the use cap not yet
reached (`UsedCount >= MaxUses` fails the check). -/
def InviteCode.isActive (c : InviteCode) : Bool :=
  if c.status ≠ statusActive then false
  else if c.usedCount ≥ c.maxUses then false
  else true

/-- `InviteCode.IsExhausted`: `UsedCount >= MaxUses`. -/
def InviteCode.isExhausted (c : InviteCode) : Bool :=
  if c.usedCount ≥ c.maxUses then true else false

/-- `InviteCode.CanBeUsed`: `IsActive() && !IsDeleted()`. -/
def InviteCode.canBeUsed (c : InviteCode) : Bool :=
  c.isActive && !c.isDeleted

/-- One usage-ledger row (`internal/model/invite_code_usage.go`).  The
surrogate id and `UsedAt` timestamp carry no claim-relevant information
and are omitted. -/
structure Usage where
  inviteCodeID : Nat
  usedByID : Nat
  ipAddress : String
  userAgent : String
deriving Repr, DecidableEq

/-- The `User` record (`internal/model/user.go`), restricted to the fields
the registration flow reads or writes. -/
structure User where
  id : Nat
  email : String
  name : String
  username : String
  password : String
  provider : String
  status : String
  role : String
  inviteCodeID : Option Nat
  inviteCodeUsed : Option String
  deleted : Bool
deriving Repr, DecidableEq

/-- `User.IsDeleted`. -/
def User.isDeleted (u : User) : Bool := u.deleted

/-- `User.IsActive`: status `active` and not soft-deleted. -/
def User.isActive (u : User) : Bool :=
  u.status == "active" && !u.isDeleted

/-- `User.IsAdmin`: role `admin` and active. -/
def User.isAdmin (u : User) : Bool :=
  u.role == "admin" && u.isActive

/-- The backing database: the `invite_codes`, `invite_code_usages` and
`users` tables. -/
structure Store where
  codes : List InviteCode
  usages : List Usage
  users : List User
deriving Repr, DecidableEq

/-- The empty database. -/
def Store.empty : Store := ⟨[], [], []⟩

/-- `GetInviteCodeByCode`: `Where("code = ?", code).First` under gorm's
soft-delete default scope, which excludes rows with `DeletedAt` set. -/
def getInviteCodeByCode (st : Store) (code : String) : Option InviteCode :=
  st.codes.find? (fun c => c.code == code && !c.deleted)

/-- `GetInviteCodeByID`: `First(&inviteCode, id)` under the soft-delete
default scope. -/
def getInviteCodeByID (st : Store) (id : Nat) : Option InviteCode :=
  st.codes.find? (fun c => c.id == id && !c.deleted)

/-- The rejection reasons of the redemption path.  `notFound` is the
"invite code not found" error, `exhausted` is "invite code has reached
maximum uses", `notActive` is "invite code is not active" (the single
message the source uses for inactive and disabled codes alike), and
`persistence` stands for a propagated store failure. -/
inductive RedemptionError where
  | notFound
  | exhausted
  | notActive
  | persistence
deriving Repr, DecidableEq

/-- `ValidateInviteCode`: look the code up (soft-deleted rows excluded),
then reject with the exhaustion message when `IsExhausted`, otherwise
with the not-active message, whenever `CanBeUsed` is false. -/
def validateInviteCode (st : Store) (code : String) :
    Except RedemptionError InviteCode :=
  match getInviteCodeByCode st code with
  | none => .error .notFound
  | some c =>
      if !c.canBeUsed then
        if c.isExhausted then .error .exhausted else .error .notActive
      else .ok c

/-- A gorm transaction: `base` is the committed store the transaction was
begun on, `view` is the store as the transaction's buffered writes would
leave it.  `Rollback` discards the buffered writes; `Commit` applies
them. -/
structure Tx where
  base : Store
  view : Store

/-- `db.Begin()`. -/
def Tx.start (st : Store) : Tx := ⟨st, st⟩

/-- `tx.Rollback()`: the committed store is left as it was. -/
def Tx.rollback (tx : Tx) : Store := tx.base

/-- `tx.Commit()`: the buffered writes become visible. -/
def Tx.commit (tx : Tx) : Store := tx.view

/-- gorm `Save` of an `InviteCode`: update the row with the record's
primary key in place. -/
def replaceCode (codes : List InviteCode) (c : InviteCode) : List InviteCode :=
  codes.map (fun x => if x.id == c.id then c else x)

/-- `tx.Save(inviteCode)` buffered inside the transaction. -/
def Tx.save (tx : Tx) (c : InviteCode) : Tx :=
  { tx with view := { tx.view with codes := replaceCode tx.view.codes c } }

/-- `tx.Create(usage)` buffered inside the transaction. -/
def Tx.createUsage (tx : Tx) (u : Usage) : Tx :=
  { tx with view := { tx.view with usages := tx.view.usages ++ [u] } }

/-- `UseInviteCode` (`InviteCodeService`, `internal/migration/migration.go`
lines 219–292).  Mirrors the source step for step: begin a transaction,
validate through `ValidateInviteCode` (which reads `s.db`, the committed
store, not the transaction), increment `UsedCount`, flip the status to
`used` when the cap is reached, `tx.Save` the row, `tx.Create` one usage
row, commit.  Every failure branch rolls the transaction back.  The
fallibility of the three store writes is modelled by `saveOk`,
`createOk` and `commitOk`. -/
def useInviteCode (st : Store) (code : String) (userID : Nat)
    (ipAddress userAgent : String) (saveOk createOk commitOk : Bool) :
    Except RedemptionError InviteCode × Store :=
  let tx := Tx.start st
  match validateInviteCode st code with
  | .error e => (.error e, tx.rollback)
  | .ok c0 =>
      let c1 := { c0 with usedCount := c0.usedCount + 1 }
      let c2 := if c1.usedCount ≥ c1.maxUses then { c1 with status := statusUsed } else c1
      if !saveOk then (.error .persistence, tx.rollback)
      else
        let tx1 := tx.save c2
        if !createOk then (.error .persistence, tx1.rollback)
        else
          let tx2 := tx1.createUsage ⟨c2.id, userID, ipAddress, userAgent⟩
          if !commitOk then (.error .persistence, tx2.rollback)
          else (.ok c2, tx2.commit)

/-- The lowercase hex alphabet of `encoding/hex`: digit characters for
values below 10, `a`–`f` (codepoints 97–102) for 10–15. -/
def hexDigitChar (n : Nat) : Char :=
  if n < 10 then Char.ofNat (48 + n) else Char.ofNat (87 + n)

/-- `hex.EncodeToString`: each byte becomes its high nibble's digit
followed by its low nibble's digit. -/
def hexEncode (bs : List Nat) : String :=
  String.mk (bs.foldr (fun b acc => hexDigitChar (b / 16) :: hexDigitChar (b % 16) :: acc) [])

/-- The store interactions the code generator can perform.  The source's
generator only ever issues the existence check `Where("code = ?",
code).First`; `insertCode` is the vocabulary for a write, so that
"the generator never writes" is expressible. -/
inductive StoreOp where
  | existsCheck (code : String)
  | insertCode (c : InviteCode)
deriving Repr, DecidableEq

/-- `GenerateInviteCode`: draw 16 random bytes, hex-encode them, check the
candidate against the store (under the soft-delete default scope) and
recurse on collision.  The `crypto/rand` source is modelled as the stream
`rand` of byte lists (an exhausted stream models a `rand.Read` failure);
the source's unbounded recursion is modelled with explicit `fuel`.  The
second component records every store interaction performed. -/
def generateInviteCode : Nat → List (List Nat) → Store → Option String × List StoreOp
  | 0, _, _ => (none, [])
  | _ + 1, [], _ => (none, [])
  | fuel + 1, bs :: rand, st =>
      let code := hexEncode bs
      if (getInviteCodeByCode st code).isSome then
        let r := generateInviteCode fuel rand st
        (r.1, .existsCheck code :: r.2)
      else
        (some code, [.existsCheck code])

/-- `CreateInviteCodeRequest` (`internal/migration/migration.go` lines
68–72): the payload carrying `max_uses` and `description`. -/
structure CreateInviteCodeRequest where
  maxUses : Int
  description : String
deriving Repr, DecidableEq

/-- The gin binding on `CreateInviteCodeRequest`:
`binding:"min=1,max=100"` on `max_uses` and `binding:"max=255"` on
`description`. -/
def createReqValid (req : CreateInviteCodeRequest) : Bool :=
  1 ≤ req.maxUses && req.maxUses ≤ 100 && req.description.length ≤ 255

/-- The surrogate key the store assigns to a newly inserted invite code:
rows are only ever soft-deleted, so auto-increment is one past the row
count. -/
def nextCodeId (st : Store) : Nat := st.codes.length + 1

/-- `CreateInviteCode` (service level): generate a unique code, then
insert a record with `Status = active` and `UsedCount = 0`.  `dbOk`
models the fallibility of the insert. -/
def createInviteCode (st : Store) (createdByID : Nat)
    (req : CreateInviteCodeRequest) (fuel : Nat) (rand : List (List Nat))
    (dbOk : Bool) : Except String InviteCode × Store :=
  match (generateInviteCode fuel rand st).1 with
  | none => (.error "failed to generate invite code", st)
  | some code =>
      let c : InviteCode :=
        { id := nextCodeId st, code := code, createdByID := createdByID,
          status := statusActive, maxUses := req.maxUses, usedCount := 0,
          description := req.description, deleted := false }
      if dbOk then (.ok c, { st with codes := st.codes ++ [c] })
      else (.error "failed to create invite code", st)

/-- `InviteCodeHandler.CreateInviteCode`: `ShouldBindJSON` enforces the
request binding before the service runs; a binding failure is a 400 and
touches nothing. -/
def handleCreateInviteCode (st : Store) (userID : Nat)
    (req : CreateInviteCodeRequest) (fuel : Nat) (rand : List (List Nat))
    (dbOk : Bool) : Except String InviteCode × Store :=
  if !createReqValid req then (.error "binding failed", st)
  else createInviteCode st userID req fuel rand dbOk

/-- `UpdateInviteCodeStatus` (service level): load the row by id (under
the soft-delete default scope), overwrite `Status` with the given string
— the service itself accepts any status value — and `Save`. -/
def updateInviteCodeStatus (st : Store) (id : Nat) (status : String)
    (dbOk : Bool) : Except String InviteCode × Store :=
  match getInviteCodeByID st id with
  | none => (.error "invite code not found", st)
  | some c =>
      let c2 := { c with status := status }
      if dbOk then (.ok c2, { st with codes := replaceCode st.codes c2 })
      else (.error "failed to update invite code status", st)

/-- The gin binding on the status-update payload
(`internal/handler/invite_code.go` lines 195–197):
`binding:"required,oneof=active disabled"`. -/
def statusReqValid (status : String) : Bool :=
  status == statusActive || status == statusDisabled

/-- `InviteCodeHandler.UpdateInviteCodeStatus`: bind and validate the
payload, load the code, enforce that the requester is the creator or an
admin, then run the service update. -/
def handleUpdateInviteCodeStatus (st : Store) (user : User) (id : Nat)
    (status : String) (dbOk : Bool) : Except String InviteCode × Store :=
  if !statusReqValid status then (.error "binding failed", st)
  else
    match getInviteCodeByID st id with
    | none => (.error "invite code not found", st)
    | some c =>
        if c.createdByID ≠ user.id && !user.isAdmin then
          (.error "you can only update your own invite codes", st)
        else updateInviteCodeStatus st id status dbOk

/-- `DeleteInviteCode`: gorm soft delete — set the delete marker on the
matching live row; zero rows affected reports "invite code not found". -/
def deleteInviteCode (st : Store) (id : Nat) : Except String Unit × Store :=
  match getInviteCodeByID st id with
  | none => (.error "invite code not found", st)
  | some _ =>
      (.ok (),
       { st with codes := st.codes.map (fun x =>
           if x.id == id && !x.deleted then { x with deleted := true } else x) })

/-- The model of `bcrypt.GenerateFromPassword`: an injective tagging of
the password.  No claim depends on the hash's value. -/
def hashPassword (p : String) : String := "bcrypt$" ++ p

/-- `strings.Split(req.Email, "@")[0]`. -/
def emailLocalPart (email : String) : String :=
  email.takeWhile (fun ch => ch ≠ '@')

/-- `strings.ToUpper(string(baseUsername[0])) + baseUsername[1:]`. -/
def capitalizeFirst (s : String) : String :=
  match s.data with
  | [] => s
  | ch :: rest => String.mk (ch.toUpper :: rest)

/-- `UserService.GetUserByEmail` under the soft-delete default scope. -/
def getUserByEmail (st : Store) (email : String) : Option User :=
  st.users.find? (fun u => u.email == email && !u.deleted)

/-- The surrogate key assigned to a newly inserted user. -/
def nextUserId (st : Store) : Nat := st.users.length + 1

/-- `AuthService.Register` (`internal/service/auth.go` lines 51–155).
Mirrors the source: (1) when a non-empty invite code is supplied,
validate it read-only and fail the whole registration on rejection;
(2) reject an email that already has an account; (3) hash the password
and build the user record — with `InviteCodeID`/`InviteCodeUsed` set
when a code was supplied — and insert it (`createUserOk`); (4) redeem
the code via `UseInviteCode`, logging but swallowing any redemption
error; (5) issue the JWT (`tokenOk`).  The generated unique username is
passed in as `username`, standing for `generateUniqueUsername`'s result
(its random probing is claim-irrelevant). -/
def register (st : Store) (email password inviteCode username : String)
    (createUserOk tokenOk saveOk createOk commitOk : Bool) :
    Except String User × Store :=
  let validated : Except String (Option InviteCode) :=
    if inviteCode ≠ "" then
      match validateInviteCode st inviteCode with
      | .error _ => .error "invalid invite code"
      | .ok c => .ok (some c)
    else .ok none
  match validated with
  | .error e => (.error e, st)
  | .ok codeOpt =>
      match getUserByEmail st email with
      | some _ => (.error "user already exists", st)
      | none =>
          let base := emailLocalPart email
          let user : User :=
            { id := nextUserId st, email := email,
              name := capitalizeFirst base, username := username,
              password := hashPassword password, provider := "local",
              status := "active", role := "user",
              inviteCodeID := codeOpt.map (fun c => c.id),
              inviteCodeUsed := codeOpt.map (fun c => c.code),
              deleted := false }
          if !createUserOk then (.error "failed to create user account", st)
          else
            let st1 := { st with users := st.users ++ [user] }
            let st2 :=
              match codeOpt with
              | none => st1
              | some c =>
                  (useInviteCode st1 c.code user.id "unknown" "unknown"
                    saveOk createOk commitOk).2
            if !tokenOk then (.error "failed to generate authentication token", st2)
            else (.ok user, st2)

/-- The core operations on the invite-code store, each carrying the
nondeterminism its implementation consumes (random stream, store-failure
flags, the requesting user for the status endpoint). -/
inductive Op where
  | create (userID : Nat) (req : CreateInviteCodeRequest) (fuel : Nat)
      (rand : List (List Nat)) (dbOk : Bool)
  | redeem (code : String) (userID : Nat) (ipAddress userAgent : String)
      (saveOk createOk commitOk : Bool)
  | setStatus (user : User) (id : Nat) (status : String) (dbOk : Bool)
  | remove (id : Nat)

/-- Run one core operation against the store (results discarded). -/
def applyOp (st : Store) : Op → Store
  | .create userID req fuel rand dbOk =>
      (handleCreateInviteCode st userID req fuel rand dbOk).2
  | .redeem code userID ip ua saveOk createOk commitOk =>
      (useInviteCode st code userID ip ua saveOk createOk commitOk).2
  | .setStatus user id status dbOk =>
      (handleUpdateInviteCodeStatus st user id status dbOk).2
  | .remove id => (deleteInviteCode st id).2

/-- Run a sequence of core operations from a starting store. -/
def applyOps (st : Store) (ops : List Op) : Store := ops.foldl applyOp st

/-- The control state of one in-flight `UseInviteCode` call, for reasoning
about interleavings.  Between its two interactions with the committed
store — the `ValidateInviteCode` read (which goes through `s.db`, not the
transaction, and takes no row lock) and the commit (the point at which
the buffered `Save` and `Create` become visible) — the call touches only
its private transaction buffer, so an attempt is faithfully a `validate`
step followed by a `commit` step against the shared store. -/
inductive RProc where
  | start
  | validated (c : InviteCode)
  | done (r : Except RedemptionError InviteCode)
deriving Repr

/-- One atomic step of an in-flight redemption attempt (the success path:
the store accepts all three writes).  `start` performs the
`ValidateInviteCode` read against the committed store; `validated c`
computes the incremented record exactly as `UseInviteCode` does and makes
the transaction's `Save` and usage `Create` visible at once (the
commit). -/
def rStep (shared : Store) (code : String) (userID : Nat)
    (ipAddress userAgent : String) : RProc → Store × RProc
  | .start =>
      match validateInviteCode shared code with
      | .error e => (shared, .done (.error e))
      | .ok c => (shared, .validated c)
  | .validated c =>
      let c1 := { c with usedCount := c.usedCount + 1 }
      let c2 := if c1.usedCount ≥ c1.maxUses then { c1 with status := statusUsed } else c1
      ({ shared with
          codes := replaceCode shared.codes c2,
          usages := shared.usages ++ [⟨c2.id, userID, ipAddress, userAgent⟩] },
       .done (.ok c2))
  | .done r => (shared, .done r)

/-- Run two concurrent redemption attempts `A` (user `uidA`) and `B`
(user `uidB`) on the same code under a schedule: `true` steps `A`,
`false` steps `B`. -/
def runTwo (code : String) (uidA uidB : Nat) (ipAddress userAgent : String) :
    List Bool → Store → RProc → RProc → Store × RProc × RProc
  | [], st, a, b => (st, a, b)
  | true :: sched, st, a, b =>
      let s := rStep st code uidA ipAddress userAgent a
      runTwo code uidA uidB ipAddress userAgent sched s.1 s.2 b
  | false :: sched, st, a, b =>
      let s := rStep st code uidB ipAddress userAgent b
      runTwo code uidA uidB ipAddress userAgent sched s.1 a s.2

/-! ### Basic facts about lookups, validation and `replaceCode` -/

theorem getByCode_some {st : Store} {code : String} {c : InviteCode}
    (h : getInviteCodeByCode st code = some c) :
    c ∈ st.codes ∧ c.code = code ∧ c.deleted = false := by
  have hmem := List.mem_of_find?_eq_some h
  have hp := List.find?_some h
  simp only [Bool.and_eq_true, beq_iff_eq, Bool.not_eq_true'] at hp
  exact ⟨hmem, hp.1, hp.2⟩

theorem getByID_some {st : Store} {id : Nat} {c : InviteCode}
    (h : getInviteCodeByID st id = some c) :
    c ∈ st.codes ∧ c.id = id ∧ c.deleted = false := by
  have hmem := List.mem_of_find?_eq_some h
  have hp := List.find?_some h
  simp only [Bool.and_eq_true, beq_iff_eq, Bool.not_eq_true'] at hp
  exact ⟨hmem, hp.1, hp.2⟩

theorem validate_ok {st : Store} {code : String} {c : InviteCode}
    (h : validateInviteCode st code = .ok c) :
    getInviteCodeByCode st code = some c ∧ c ∈ st.codes ∧ c.code = code ∧
      c.deleted = false ∧ c.status = statusActive ∧ c.usedCount < c.maxUses := by
  unfold validateInviteCode at h
  split at h
  · exact absurd h (by simp)
  next c0 hfind =>
    split at h
    · split at h <;> exact absurd h (by simp)
    next hcb =>
      have hc0 : c0 = c := by simpa using h
      subst hc0
      have hbase := getByCode_some hfind
      have hc : c0.canBeUsed = true := by
        simp only [Bool.not_eq_true'] at hcb
        simpa using hcb
      have hact : c0.isActive = true := by
        unfold InviteCode.canBeUsed at hc
        exact ((Bool.and_eq_true _ _).mp hc).1
      unfold InviteCode.isActive at hact
      by_cases hs : c0.status = statusActive
      · refine ⟨hfind, hbase.1, hbase.2.1, hbase.2.2, hs, ?_⟩
        by_cases hcnt : c0.usedCount ≥ c0.maxUses
        · rw [if_neg (by simp [hs]), if_pos hcnt] at hact; cases hact
        · omega
      · rw [if_pos (by simp [hs])] at hact; cases hact

theorem mem_replaceCode {l : List InviteCode} {c x : InviteCode}
    (h : x ∈ replaceCode l c) :
    ∃ y ∈ l, x = if y.id == c.id then c else y := by
  unfold replaceCode at h
  obtain ⟨y, hy, hxy⟩ := List.mem_map.mp h
  exact ⟨y, hy, hxy.symm⟩

theorem map_id_replaceCode (l : List InviteCode) (c : InviteCode) :
    (replaceCode l c).map (fun x => x.id) = l.map (fun x => x.id) := by
  unfold replaceCode
  rw [List.map_map]
  apply List.map_congr_left
  intro a _
  show (if a.id == c.id then c else a).id = a.id
  by_cases h : a.id == c.id
  · rw [if_pos h]; exact (beq_iff_eq.mp h).symm
  · rw [if_neg h]

theorem users_useInviteCode (st : Store) (code : String) (userID : Nat)
    (ip ua : String) (saveOk createOk commitOk : Bool) :
    (useInviteCode st code userID ip ua saveOk createOk commitOk).2.users = st.users := by
  unfold useInviteCode
  cases validateInviteCode st code with
  | error e => rfl
  | ok c0 => cases saveOk <;> cases createOk <;> cases commitOk <;> rfl

theorem validate_notFound {st : Store} {code : String}
    (h : ∀ c ∈ st.codes, c.code = code → c.deleted = true) :
    validateInviteCode st code = .error .notFound := by
  have hnone : getInviteCodeByCode st code = none := by
    unfold getInviteCodeByCode
    rw [List.find?_eq_none]
    intro x hx
    by_cases hc : x.code = code
    · simp [hc, h x hx hc]
    · simp [hc]
  unfold validateInviteCode
  rw [hnone]

theorem validate_exhausted {st : Store} {code : String} {c : InviteCode}
    (hfind : getInviteCodeByCode st code = some c)
    (hcnt : c.maxUses ≤ c.usedCount) :
    validateInviteCode st code = .error .exhausted := by
  have hex : c.isExhausted = true := by
    unfold InviteCode.isExhausted
    rw [if_pos (by omega)]
  have hact : c.isActive = false := by
    unfold InviteCode.isActive
    by_cases hs : c.status = statusActive
    · rw [if_neg (by simp [hs]), if_pos (by omega)]
    · rw [if_pos (by simp [hs])]
  have hcb : c.canBeUsed = false := by
    unfold InviteCode.canBeUsed
    rw [hact]; rfl
  unfold validateInviteCode
  rw [hfind]
  simp [hcb, hex]

theorem validate_notActive {st : Store} {code : String} {c : InviteCode}
    (hfind : getInviteCodeByCode st code = some c)
    (hcnt : c.usedCount < c.maxUses)
    (hs : c.status ≠ statusActive) :
    validateInviteCode st code = .error .notActive := by
  have hex : c.isExhausted = false := by
    unfold InviteCode.isExhausted
    rw [if_neg (by omega)]
  have hact : c.isActive = false := by
    unfold InviteCode.isActive
    rw [if_pos (by simp [hs])]
  have hcb : c.canBeUsed = false := by
    unfold InviteCode.canBeUsed
    rw [hact]; rfl
  unfold validateInviteCode
  rw [hfind]
  simp [hcb, hex]

/-! ### Claim theorems -/

/-- Full characterisation of one `UseInviteCode` call: an error leaves
the store untouched (the transaction rolls back), success yields the
row incremented by one — status flipped to `used` exactly when the cap
is reached — saved by primary key, plus exactly one appended ledger
entry. -/
theorem useInviteCode_spec (st : Store) (code : String) (userID : Nat)
    (ipAddress userAgent : String) (saveOk createOk commitOk : Bool) :
    (∀ e, (useInviteCode st code userID ipAddress userAgent saveOk createOk commitOk).1 = .error e →
      (useInviteCode st code userID ipAddress userAgent saveOk createOk commitOk).2 = st) ∧
    (∀ c2, (useInviteCode st code userID ipAddress userAgent saveOk createOk commitOk).1 = .ok c2 →
      ∃ c0, validateInviteCode st code = .ok c0 ∧ c2.id = c0.id ∧
        c2.code = c0.code ∧ c2.maxUses = c0.maxUses ∧ c2.deleted = c0.deleted ∧
        c2.usedCount = c0.usedCount + 1 ∧
        c2.status = (if c0.usedCount + 1 ≥ c0.maxUses then statusUsed else c0.status) ∧
        (useInviteCode st code userID ipAddress userAgent saveOk createOk commitOk).2 =
          { st with codes := replaceCode st.codes c2,
                    usages := st.usages ++ [⟨c2.id, userID, ipAddress, userAgent⟩] }) := by
  unfold useInviteCode
  cases hv : validateInviteCode st code with
  | error e0 =>
      simp only [hv]
      exact ⟨fun e _ => rfl, fun c2 hc => absurd hc (by simp)⟩
  | ok c0 =>
      simp only [hv]
      cases saveOk with
      | false => exact ⟨fun e _ => rfl, fun c2 hc => absurd hc (by simp)⟩
      | true =>
          cases createOk with
          | false => exact ⟨fun e _ => rfl, fun c2 hc => absurd hc (by simp)⟩
          | true =>
              cases commitOk with
              | false => exact ⟨fun e _ => rfl, fun c2 hc => absurd hc (by simp)⟩
              | true =>
                  refine ⟨fun e he => absurd he (by simp), fun c2 hc => ?_⟩
                  have hc2 :
                      (if c0.usedCount + 1 ≥ c0.maxUses
                        then { c0 with usedCount := c0.usedCount + 1, status := statusUsed }
                        else { c0 with usedCount := c0.usedCount + 1 }) = c2 := by
                    simpa using hc
                  refine ⟨c0, rfl, ?_, ?_, ?_, ?_, ?_, ?_, ?_⟩
                  · rw [← hc2]; split <;> rfl
                  · rw [← hc2]; split <;> rfl
                  · rw [← hc2]; split <;> rfl
                  · rw [← hc2]; split <;> rfl
                  · rw [← hc2]; split <;> rfl
                  · rw [← hc2]
                    by_cases hmax : c0.usedCount + 1 ≥ c0.maxUses <;> simp [hmax]
                  · rw [← hc2]; rfl

/-- **C2**: in `UseInviteCode`, the `usedCount` increment (with the
possible status flip) and the insertion of exactly one usage-ledger row
take effect together or not at all.  Whenever the call returns an error
— validation failure, failed `Save`, failed usage `Create`, or failed
commit — the store is exactly as before; whenever it succeeds, the
resulting store holds precisely the incremented row (saved by primary
key) together with exactly one appended ledger entry for this
redemption. -/
theorem useInviteCode_atomic (st : Store) (code : String) (userID : Nat)
    (ipAddress userAgent : String) (saveOk createOk commitOk : Bool) :
    (∀ e, (useInviteCode st code userID ipAddress userAgent saveOk createOk commitOk).1 = .error e →
      (useInviteCode st code userID ipAddress userAgent saveOk createOk commitOk).2 = st) ∧
    (∀ c2, (useInviteCode st code userID ipAddress userAgent saveOk createOk commitOk).1 = .ok c2 →
      ∃ c0, validateInviteCode st code = .ok c0 ∧ c2.id = c0.id ∧
        c2.usedCount = c0.usedCount + 1 ∧
        (useInviteCode st code userID ipAddress userAgent saveOk createOk commitOk).2 =
          { st with codes := replaceCode st.codes c2,
                    usages := st.usages ++ [⟨c2.id, userID, ipAddress, userAgent⟩] }) := by
  obtain ⟨h1, h2⟩ := useInviteCode_spec st code userID ipAddress userAgent saveOk createOk commitOk
  refine ⟨h1, fun c2 hc => ?_⟩
  obtain ⟨c0, hval, hid, _, _, _, hcnt, _, hst⟩ := h2 c2 hc
  exact ⟨c0, hval, hid, hcnt, hst⟩

/-- Witness for `useInviteCode_atomic`: on a store holding one active
single-use code, a redemption whose `Save` fails leaves the store
unchanged. -/
theorem useInviteCode_atomic_witness :
    (useInviteCode ⟨[⟨1, "c", 7, statusActive, 1, 0, "", false⟩], [], []⟩
        "c" 8 "ip" "ua" false true true).2 =
      ⟨[⟨1, "c", 7, statusActive, 1, 0, "", false⟩], [], []⟩ :=
  (useInviteCode_atomic ⟨[⟨1, "c", 7, statusActive, 1, 0, "", false⟩], [], []⟩
      "c" 8 "ip" "ua" false true true).1 .persistence rfl

/-- Faithfulness of the two-phase interleaving model: run in isolation,
the `validate` step followed by the `commit` step of `rStep` produces
exactly the store and result of `UseInviteCode` on the success path. -/
theorem rStep_faithful (st : Store) (code : String) (userID : Nat)
    (ipAddress userAgent : String) :
    (let s1 := rStep st code userID ipAddress userAgent .start
     let s2 := rStep s1.1 code userID ipAddress userAgent s1.2
     (s2.1, s2.2)) =
      (let r := useInviteCode st code userID ipAddress userAgent true true true
       (r.2, RProc.done r.1)) := by
  show (let s1 := rStep st code userID ipAddress userAgent .start
        let s2 := rStep s1.1 code userID ipAddress userAgent s1.2
        (s2.1, s2.2)) = _
  unfold rStep useInviteCode
  cases validateInviteCode st code with
  | error e => rfl
  | ok c0 => rfl

/-- **C1** (evidence for the code bug): the claim asserts that with
`maxUses = N` and `N + k` concurrent redemption attempts exactly `N`
succeed, because redemption steps 3–6 run in a transaction holding a row
lock on the InviteCode row.  The source takes no such lock: the
eligibility read goes through `s.db` outside the transaction, so two
attempts may both read `usedCount = 0` on a `maxUses = 1` code before
either commits.  Under that schedule (A validates, B validates, A
commits, B commits) both attempts succeed, the ledger gains two rows,
and the committed `usedCount` is 1 — `2` successes where the claim
requires exactly `1`. -/
theorem concurrent_redemption_oversells :
    runTwo "c" 8 9 "ip" "ua" [true, false, true, false]
        ⟨[⟨1, "c", 7, statusActive, 1, 0, "", false⟩], [], []⟩ .start .start =
      (⟨[⟨1, "c", 7, statusUsed, 1, 1, "", false⟩],
        [⟨1, 8, "ip", "ua"⟩, ⟨1, 9, "ip", "ua"⟩], []⟩,
       .done (.ok ⟨1, "c", 7, statusUsed, 1, 1, "", false⟩),
       .done (.ok ⟨1, "c", 7, statusUsed, 1, 1, "", false⟩)) := by
  rfl

/-- **C4**: selection of the redemption rejection.  (i) When every row
carrying the code string is soft-deleted — in particular when none
exists — validation fails `notFound`.  (ii) When the looked-up code has
`usedCount ≥ maxUses`, validation fails `exhausted`, with no condition
on the status: exhaustion takes precedence over inactivity.  (iii)
Otherwise a non-`active` status fails with the not-active rejection (the
source's single message covering `Inactive`/`Disabled`).  (iv) Redeeming
an unused (`usedCount = 0`) code that was switched to `disabled` fails
with that rejection and leaves the store — in particular the code's
`usedCount` — untouched. -/
theorem validate_error_selection (st : Store) (code : String) :
    ((∀ c ∈ st.codes, c.code = code → c.deleted = true) →
      validateInviteCode st code = .error .notFound) ∧
    (∀ c, getInviteCodeByCode st code = some c → c.maxUses ≤ c.usedCount →
      validateInviteCode st code = .error .exhausted) ∧
    (∀ c, getInviteCodeByCode st code = some c → c.usedCount < c.maxUses →
      c.status ≠ statusActive →
      validateInviteCode st code = .error .notActive) ∧
    (∀ c, getInviteCodeByCode st code = some c → c.status = statusDisabled →
      c.usedCount = 0 → 0 < c.maxUses →
      ∀ userID ip ua saveOk createOk commitOk,
        useInviteCode st code userID ip ua saveOk createOk commitOk =
          (.error .notActive, st)) := by
  refine ⟨validate_notFound, fun c hf hc => validate_exhausted hf hc,
    fun c hf hc hs => validate_notActive hf hc hs, fun c hf hs hcnt hmax uid ip ua s1 s2 s3 => ?_⟩
  have hval : validateInviteCode st code = .error .notActive := by
    refine validate_notActive hf (by omega) ?_
    rw [hs]
    decide
  unfold useInviteCode
  rw [hval]
  rfl

/-- Witness for `validate_error_selection`: a store holding one disabled,
unused code; redemption fails with the not-active rejection and the
store is unchanged. -/
theorem validate_error_selection_witness :
    useInviteCode ⟨[⟨1, "c", 7, statusDisabled, 3, 0, "", false⟩], [], []⟩
        "c" 8 "ip" "ua" true true true =
      (.error .notActive, ⟨[⟨1, "c", 7, statusDisabled, 3, 0, "", false⟩], [], []⟩) :=
  (validate_error_selection ⟨[⟨1, "c", 7, statusDisabled, 3, 0, "", false⟩], [], []⟩ "c").2.2.2
    ⟨1, "c", 7, statusDisabled, 3, 0, "", false⟩ rfl rfl rfl (by decide) 8 "ip" "ua" true true true

/-- **C10**: a `Register` call with a non-empty invite code that fails
the initial read-only validation returns the "invalid invite code" error
before anything is created: the store — users, codes and usage ledger —
is returned exactly as it was. -/
theorem register_rejects_invalid_code (st : Store)
    (email pw code username : String)
    (createUserOk tokenOk saveOk createOk commitOk : Bool)
    (e : RedemptionError)
    (hcode : code ≠ "")
    (hval : validateInviteCode st code = .error e) :
    register st email pw code username createUserOk tokenOk saveOk createOk commitOk =
      (.error "invalid invite code", st) := by
  unfold register
  rw [if_pos hcode, hval]

/-- Witness for `register_rejects_invalid_code`: registering against an
empty store with a code that does not exist fails and changes nothing. -/
theorem register_rejects_invalid_code_witness :
    register Store.empty "a@b.example" "hunter22" "nope" "ab" true true true true true =
      (.error "invalid invite code", Store.empty) :=
  register_rejects_invalid_code Store.empty "a@b.example" "hunter22" "nope" "ab"
    true true true true true .notFound (by decide) rfl

/-- **C5**: when `Register` is called with a non-empty invite code that
passes the initial read-only validation, the email is free, and user
creation and token issuance succeed, registration succeeds and the
created user record — stored in the user table — carries
`inviteCodeID = c.id` and `inviteCodeUsed = c.code` for the validated
code `c`.  This holds for every outcome of the later `UseInviteCode`
call (`saveOk`, `createOk`, `commitOk` universally quantified): a failed
redemption is logged but not surfaced and does not roll back the
account. -/
theorem register_succeeds_despite_redemption_failure (st : Store)
    (email pw code username : String) (c : InviteCode)
    (saveOk createOk commitOk : Bool)
    (hcode : code ≠ "")
    (hval : validateInviteCode st code = .ok c)
    (hemail : getUserByEmail st email = none) :
    ∃ u : User,
      (register st email pw code username true true saveOk createOk commitOk).1 = .ok u ∧
      u.inviteCodeID = some c.id ∧ u.inviteCodeUsed = some c.code ∧
      u ∈ (register st email pw code username true true saveOk createOk commitOk).2.users := by
  unfold register
  rw [if_pos hcode, hval, hemail]
  refine ⟨_, rfl, rfl, rfl, ?_⟩
  show _ ∈ (useInviteCode _ c.code _ "unknown" "unknown" saveOk createOk commitOk).2.users
  rw [users_useInviteCode]
  exact List.mem_append_right _ (List.mem_singleton.mpr rfl)

/-- Witness for `register_succeeds_despite_redemption_failure`: a store
with one active code; the redemption's `Save` fails (`saveOk = false`),
yet registration succeeds and the stored user carries the code's id and
string. -/
theorem register_succeeds_despite_redemption_failure_witness :
    ∃ u : User,
      (register ⟨[⟨1, "c", 7, statusActive, 1, 0, "", false⟩], [], []⟩
          "a@b.example" "hunter22" "c" "ab" true true false true true).1 = .ok u ∧
      u.inviteCodeID = some 1 ∧ u.inviteCodeUsed = some "c" ∧
      u ∈ (register ⟨[⟨1, "c", 7, statusActive, 1, 0, "", false⟩], [], []⟩
          "a@b.example" "hunter22" "c" "ab" true true false true true).2.users :=
  register_succeeds_despite_redemption_failure
    ⟨[⟨1, "c", 7, statusActive, 1, 0, "", false⟩], [], []⟩
    "a@b.example" "hunter22" "c" "ab" ⟨1, "c", 7, statusActive, 1, 0, "", false⟩
    false true true (by decide) rfl rfl

/-- **C6**: creation of an invite code through the handler.  When
`maxUses ∈ [1,100]`, the description is at most 255 characters, the
generator yields a code and the insert succeeds, a new record with
`status = active` and `usedCount = 0` is appended to the store; when
`maxUses` is out of range or the description too long, the request is
rejected by the binding (`ValidationError`) and the store is returned
unchanged. -/
theorem create_invite_code_validation (st : Store) (userID : Nat)
    (req : CreateInviteCodeRequest) (fuel : Nat) (rand : List (List Nat))
    (dbOk : Bool) :
    (∀ code, 1 ≤ req.maxUses → req.maxUses ≤ 100 → req.description.length ≤ 255 →
      (generateInviteCode fuel rand st).1 = some code →
      handleCreateInviteCode st userID req fuel rand true =
        (.ok ⟨nextCodeId st, code, userID, statusActive, req.maxUses, 0, req.description, false⟩,
         { st with codes := st.codes ++
             [⟨nextCodeId st, code, userID, statusActive, req.maxUses, 0, req.description, false⟩] })) ∧
    (¬(1 ≤ req.maxUses ∧ req.maxUses ≤ 100 ∧ req.description.length ≤ 255) →
      handleCreateInviteCode st userID req fuel rand dbOk = (.error "binding failed", st)) := by
  constructor
  · intro code h1 h2 h3 hgen
    have hvalid : createReqValid req = true := by
      unfold createReqValid
      simp only [Bool.and_eq_true, decide_eq_true_eq]
      exact ⟨⟨h1, h2⟩, h3⟩
    unfold handleCreateInviteCode
    rw [if_neg (by simp [hvalid])]
    unfold createInviteCode
    rw [hgen]
    rfl
  · intro h
    have hvalid : createReqValid req = false := by
      cases hcv : createReqValid req with
      | false => rfl
      | true =>
          exfalso
          apply h
          unfold createReqValid at hcv
          simp only [Bool.and_eq_true, decide_eq_true_eq] at hcv
          exact ⟨hcv.1.1, hcv.1.2, hcv.2⟩
    unfold handleCreateInviteCode
    rw [if_pos (by simp [hvalid])]

/-- Witness for `create_invite_code_validation`: creating a code with
`maxUses = 10` and description "team invite" on an empty store persists
an active, unused record. -/
theorem create_invite_code_validation_witness :
    handleCreateInviteCode Store.empty 7 ⟨10, "team invite"⟩ 1 [List.replicate 16 0] true =
      (.ok ⟨1, "00000000000000000000000000000000", 7, statusActive, 10, 0, "team invite", false⟩,
       ⟨[⟨1, "00000000000000000000000000000000", 7, statusActive, 10, 0, "team invite", false⟩],
        [], []⟩) :=
  (create_invite_code_validation Store.empty 7 ⟨10, "team invite"⟩ 1
      [List.replicate 16 0] true).1
    "00000000000000000000000000000000" (by decide) (by decide) (by decide) rfl

theorem statusReqValid_elim {status : String} (h : statusReqValid status = true) :
    status = statusActive ∨ status = statusDisabled := by
  unfold statusReqValid at h
  simpa using h

theorem handleUpdate_ok (st : Store) (user : User) (id : Nat)
    (status : String) (dbOk : Bool) (c2 : InviteCode)
    (h : (handleUpdateInviteCodeStatus st user id status dbOk).1 = .ok c2) :
    c2.status = status ∧ statusReqValid status = true := by
  unfold handleUpdateInviteCodeStatus updateInviteCodeStatus at h
  split at h
  next hval => exact absurd h (by simp)
  next hval =>
    have hv : statusReqValid status = true := by
      simp only [Bool.not_eq_true'] at hval
      simpa using hval
    split at h
    · exact absurd h (by simp)
    next c hfind =>
      split at h
      · exact absurd h (by simp)
      · split at h
        · exact absurd h (by simp)
        next c3 hfind3 =>
          cases dbOk with
          | false => exact absurd h (by simp)
          | true =>
              have : ({ c3 with status := status } : InviteCode) = c2 := by simpa using h
              exact ⟨by rw [← this], hv⟩

theorem handleUpdate_mem (st : Store) (user : User) (id : Nat)
    (status : String) (dbOk : Bool) (c2 : InviteCode)
    (h : c2 ∈ (handleUpdateInviteCodeStatus st user id status dbOk).2.codes) :
    c2 ∈ st.codes ∨ (c2.status = status ∧ statusReqValid status = true) := by
  unfold handleUpdateInviteCodeStatus updateInviteCodeStatus at h
  split at h
  next hval => exact .inl h
  next hval =>
    have hv : statusReqValid status = true := by
      simp only [Bool.not_eq_true'] at hval
      simpa using hval
    split at h
    · exact .inl h
    next c hfind =>
      split at h
      · exact .inl h
      · split at h
        · exact .inl h
        next c3 hfind3 =>
          cases dbOk with
          | false => exact .inl h
          | true =>
              obtain ⟨y, hy, hxy⟩ := mem_replaceCode h
              by_cases hid : y.id == ({ c3 with status := status } : InviteCode).id
              · rw [if_pos hid] at hxy
                exact .inr ⟨by rw [hxy], hv⟩
              · rw [if_neg hid] at hxy
                exact .inl (hxy ▸ hy)

theorem applyOp_used_only_by_redeem (st : Store) (op : Op) (c2 : InviteCode)
    (hmem : c2 ∈ (applyOp st op).codes) (hused : c2.status = statusUsed) :
    (∃ c ∈ st.codes, c.id = c2.id ∧ c.status = statusUsed) ∨
    ∃ code userID ip ua saveOk createOk commitOk,
      op = .redeem code userID ip ua saveOk createOk commitOk := by
  cases op with
  | redeem code userID ip ua s k m =>
      exact .inr ⟨code, userID, ip, ua, s, k, m, rfl⟩
  | create userID req fuel rand dbOk =>
      left
      replace hmem : c2 ∈ (handleCreateInviteCode st userID req fuel rand dbOk).2.codes := hmem
      unfold handleCreateInviteCode createInviteCode at hmem
      split at hmem
      · exact ⟨c2, hmem, rfl, hused⟩
      · split at hmem
        · exact ⟨c2, hmem, rfl, hused⟩
        next code hgen =>
            cases dbOk with
            | false => exact ⟨c2, hmem, rfl, hused⟩
            | true =>
                rcases List.mem_append.mp hmem with hold | hnew
                · exact ⟨c2, hold, rfl, hused⟩
                · have hc2 : c2 =
                      ⟨nextCodeId st, code, userID, statusActive, req.maxUses, 0,
                        req.description, false⟩ := by
                    simpa using hnew
                  rw [hc2] at hused
                  have hcontra : statusActive = statusUsed := hused
                  exact absurd hcontra (by decide)
  | setStatus user id status dbOk =>
      rcases handleUpdate_mem st user id status dbOk c2 hmem with hold | ⟨hst, hv⟩
      · exact .inl ⟨c2, hold, rfl, hused⟩
      · exfalso
        rw [hst] at hused
        rcases statusReqValid_elim hv with h | h <;> rw [h] at hused <;>
          exact absurd hused (by decide)
  | remove id =>
      left
      replace hmem : c2 ∈ (deleteInviteCode st id).2.codes := hmem
      unfold deleteInviteCode at hmem
      split at hmem
      · exact ⟨c2, hmem, rfl, hused⟩
      next c hfind =>
          obtain ⟨y, hy, hxy⟩ := List.mem_map.mp hmem
          have hid : c2.id = y.id := by rw [← hxy]; split <;> rfl
          have hstat : c2.status = y.status := by rw [← hxy]; split <;> rfl
          exact ⟨y, hy, hid.symm, by rw [← hstat]; exact hused⟩

/-- **C9**: the exposed status-update endpoint (whose gin binding is
`oneof=active disabled`) only ever stores a status in
`{active, disabled}`: a successful update's result carries such a
status, every row of the resulting store is either an untouched old row
or carries such a status, and across all core operations a code row can
newly carry the `used` status only as the result of a redemption
(`UseInviteCode`), never of a status update. -/
theorem update_status_never_stores_used :
    (∀ st user id status dbOk c2,
      (handleUpdateInviteCodeStatus st user id status dbOk).1 = .ok c2 →
      c2.status = statusActive ∨ c2.status = statusDisabled) ∧
    (∀ st user id status dbOk c2,
      c2 ∈ (handleUpdateInviteCodeStatus st user id status dbOk).2.codes →
      c2 ∈ st.codes ∨ c2.status = statusActive ∨ c2.status = statusDisabled) ∧
    (∀ st op c2, c2 ∈ (applyOp st op).codes → c2.status = statusUsed →
      (∃ c ∈ st.codes, c.id = c2.id ∧ c.status = statusUsed) ∨
      ∃ code userID ip ua saveOk createOk commitOk,
        op = .redeem code userID ip ua saveOk createOk commitOk) := by
  refine ⟨fun st user id status dbOk c2 h => ?_, fun st user id status dbOk c2 h => ?_,
    applyOp_used_only_by_redeem⟩
  · obtain ⟨hst, hv⟩ := handleUpdate_ok st user id status dbOk c2 h
    rcases statusReqValid_elim hv with h1 | h1
    · exact .inl (hst.trans h1)
    · exact .inr (hst.trans h1)
  · rcases handleUpdate_mem st user id status dbOk c2 h with hold | ⟨hst, hv⟩
    · exact .inl hold
    · rcases statusReqValid_elim hv with h1 | h1
      · exact .inr (.inl (hst.trans h1))
      · exact .inr (.inr (hst.trans h1))

/-- Witness for `update_status_never_stores_used`: disabling an owned
code through the endpoint yields a record whose stored status is
`active` or `disabled`. -/
theorem update_status_never_stores_used_witness :
    (⟨1, "c", 7, statusDisabled, 3, 0, "", false⟩ : InviteCode).status = statusActive ∨
    (⟨1, "c", 7, statusDisabled, 3, 0, "", false⟩ : InviteCode).status = statusDisabled :=
  update_status_never_stores_used.1
    ⟨[⟨1, "c", 7, statusActive, 3, 0, "", false⟩], [], []⟩
    ⟨7, "o@b.example", "O", "o", "pw", "local", "active", "user", none, none, false⟩
    1 statusDisabled true ⟨1, "c", 7, statusDisabled, 3, 0, "", false⟩ rfl

theorem hexEncode_length (bs : List Nat) : (hexEncode bs).length = 2 * bs.length := by
  unfold hexEncode
  show (bs.foldr (fun b acc => hexDigitChar (b / 16) :: hexDigitChar (b % 16) :: acc) []).length =
    2 * bs.length
  induction bs with
  | nil => rfl
  | cons b bs ih => simp [List.foldr_cons, ih]; omega

theorem hexEncode_chars {bs : List Nat} (hb : ∀ b ∈ bs, b < 256) :
    ∀ ch ∈ (hexEncode bs).data, ∃ n, n < 16 ∧ ch = hexDigitChar n := by
  unfold hexEncode
  induction bs with
  | nil => intro ch hch; cases hch
  | cons b bs ih =>
      intro ch hch
      have hb0 : b < 256 := hb b (List.mem_cons_self b bs)
      rcases List.mem_cons.mp hch with h | h2
      · exact ⟨b / 16, by omega, h⟩
      · rcases List.mem_cons.mp h2 with h | h3
        · exact ⟨b % 16, by omega, h⟩
        · exact ih (fun x hx => hb x (List.mem_cons_of_mem b hx)) ch h3

theorem hexDigitChar_range :
    ∀ n, n < 16 → (48 ≤ (hexDigitChar n).toNat ∧ (hexDigitChar n).toNat ≤ 57) ∨
      (97 ≤ (hexDigitChar n).toNat ∧ (hexDigitChar n).toNat ≤ 102) := by decide

theorem generate_some {fuel : Nat} {rand : List (List Nat)} {st : Store}
    {code : String} {ops : List StoreOp}
    (hgen : generateInviteCode fuel rand st = (some code, ops)) :
    (∃ bs ∈ rand, code = hexEncode bs) ∧
    getInviteCodeByCode st code = none ∧
    (∀ op ∈ ops, ∃ s, op = .existsCheck s) := by
  induction fuel generalizing rand ops with
  | zero => exact absurd hgen (by simp [generateInviteCode])
  | succ fuel ih =>
      cases rand with
      | nil => exact absurd hgen (by simp [generateInviteCode])
      | cons bs rest =>
          unfold generateInviteCode at hgen
          dsimp only at hgen
          split at hgen
          next hcont =>
              have h1 : (generateInviteCode fuel rest st).1 = some code := by
                have := congrArg Prod.fst hgen
                simpa using this
              have h2 : ops = .existsCheck (hexEncode bs) :: (generateInviteCode fuel rest st).2 := by
                have := congrArg Prod.snd hgen
                simpa using this.symm
              obtain ⟨⟨bs2, hbs2, hcode⟩, hnone, hops⟩ :=
                @ih rest ((generateInviteCode fuel rest st).2) (by rw [← h1])
              refine ⟨⟨bs2, List.mem_cons_of_mem bs hbs2, hcode⟩, hnone, ?_⟩
              intro op hop
              rw [h2] at hop
              rcases List.mem_cons.mp hop with h | h
              · exact ⟨hexEncode bs, h⟩
              · exact hops op h
          next hcont =>
              have h1 : hexEncode bs = code := by
                have := congrArg Prod.fst hgen
                simpa using this
              have h2 : ops = [.existsCheck (hexEncode bs)] := by
                have := congrArg Prod.snd hgen
                simpa using this.symm
              refine ⟨⟨bs, List.mem_cons_self bs rest, h1.symm⟩, ?_, ?_⟩
              · rw [← h1]
                exact Option.not_isSome_iff_eq_none.mp (by simpa using hcont)
              · intro op hop
                rw [h2] at hop
                rcases List.mem_cons.mp hop with h | h
                · exact ⟨hexEncode bs, h⟩
                · cases h

/-- **C7** (counterexample): the claim asserts that a generated code
"differs from every code already stored — hence repeated sequential
generations yield pairwise-distinct codes".  Neither consequence holds
of the source.  (i) Two sequential generations against an unchanged
store — the generator writes nothing, so nothing prevents the store
from being unchanged — return the *same* code whenever the random
source happens to repeat the same 16 bytes (here: all zeros against an
empty store).  (ii) The existence check runs under gorm's soft-delete
default scope, so generation can return a code string equal to a stored
(soft-deleted) row's code. -/
theorem generation_uniqueness_counterexample :
    ((generateInviteCode 1 [List.replicate 16 0] Store.empty).1 =
        some "00000000000000000000000000000000" ∧
      (generateInviteCode 1 [List.replicate 16 0] Store.empty).1 =
        some "00000000000000000000000000000000") ∧
    (generateInviteCode 1 [List.replicate 16 0]
        ⟨[⟨1, "00000000000000000000000000000000", 7, statusActive, 1, 0, "", true⟩],
          [], []⟩).1 =
      some "00000000000000000000000000000000" :=
  ⟨⟨rfl, rfl⟩, rfl⟩

/-- **C7** (amended): every successful `GenerateInviteCode` call returns
the lowercase hexadecimal encoding of one 16-byte block of the random
stream — hence a 32-character string over `0–9a-f` — that differs from
the code of every *live* (non-soft-deleted) stored invite code, and the
call's store interactions are existence-check reads only, never a
write.  Distinctness of repeated generations is *not* guaranteed unless
each returned code is persisted before the next call. -/
theorem generate_code_spec (fuel : Nat) (rand : List (List Nat)) (st : Store)
    (code : String) (ops : List StoreOp)
    (hrand : ∀ bs ∈ rand, bs.length = 16 ∧ ∀ b ∈ bs, b < 256)
    (hgen : generateInviteCode fuel rand st = (some code, ops)) :
    code.length = 32 ∧
    (∀ ch ∈ code.data,
      (48 ≤ ch.toNat ∧ ch.toNat ≤ 57) ∨ (97 ≤ ch.toNat ∧ ch.toNat ≤ 102)) ∧
    (∀ c ∈ st.codes, c.deleted = false → c.code ≠ code) ∧
    (∀ op ∈ ops, ∃ s, op = .existsCheck s) := by
  obtain ⟨⟨bs, hbs, hcode⟩, hnone, hops⟩ := generate_some hgen
  obtain ⟨hlen, hbytes⟩ := hrand bs hbs
  refine ⟨by rw [hcode, hexEncode_length, hlen], ?_, ?_, hops⟩
  · intro ch hch
    rw [hcode] at hch
    obtain ⟨n, hn, hchn⟩ := hexEncode_chars hbytes ch hch
    rw [hchn]
    exact hexDigitChar_range n hn
  · intro c hc hdel heq
    have : ¬((c.code == code && !c.deleted) = true) := by
      unfold getInviteCodeByCode at hnone
      exact List.find?_eq_none.mp hnone c hc
    exact this (by simp [heq, hdel])

/-- Witness for `generate_code_spec`: one generation from an all-zero
16-byte block against a store holding one live code returns the 32-zero
hex string, which differs from the stored code. -/
theorem generate_code_spec_witness :
    ("00000000000000000000000000000000" : String).length = 32 ∧
    (∀ ch ∈ ("00000000000000000000000000000000" : String).data,
      (48 ≤ ch.toNat ∧ ch.toNat ≤ 57) ∨ (97 ≤ ch.toNat ∧ ch.toNat ≤ 102)) ∧
    (∀ c ∈ (⟨[⟨1, "c", 7, statusActive, 1, 0, "", false⟩], [], []⟩ : Store).codes,
      c.deleted = false → c.code ≠ "00000000000000000000000000000000") ∧
    (∀ op ∈ [StoreOp.existsCheck "00000000000000000000000000000000"],
      ∃ s, op = .existsCheck s) :=
  generate_code_spec 1 [List.replicate 16 0]
    ⟨[⟨1, "c", 7, statusActive, 1, 0, "", false⟩], [], []⟩
    "00000000000000000000000000000000"
    [StoreOp.existsCheck "00000000000000000000000000000000"]
    (by decide) rfl

theorem handleUpdate_shape (st : Store) (user : User) (id : Nat)
    (status : String) (dbOk : Bool) :
    (handleUpdateInviteCodeStatus st user id status dbOk).2 = st ∨
    ∃ c ∈ st.codes, c.deleted = false ∧ statusReqValid status = true ∧
      (handleUpdateInviteCodeStatus st user id status dbOk).2 =
        { st with codes := replaceCode st.codes { c with status := status } } := by
  unfold handleUpdateInviteCodeStatus updateInviteCodeStatus
  by_cases hvv : statusReqValid status = true
  · rw [if_neg (by simp [hvv])]
    cases hfind : getInviteCodeByID st id with
    | none => left; rfl
    | some c =>
        dsimp only
        by_cases hown : c.createdByID ≠ user.id && !user.isAdmin
        · rw [if_pos hown]; left; rfl
        · rw [if_neg hown]
          cases dbOk with
          | false => left; rfl
          | true =>
              right
              obtain ⟨hcmem, _, hdel⟩ := getByID_some hfind
              exact ⟨c, hcmem, hdel, hvv, rfl⟩
  · left
    rw [if_pos (by simp [hvv])]

theorem delete_shape (st : Store) (id : Nat) :
    (deleteInviteCode st id).2 = st ∨
    (deleteInviteCode st id).2 =
      { st with codes := st.codes.map (fun x =>
          if x.id == id && !x.deleted then { x with deleted := true } else x) } := by
  unfold deleteInviteCode
  cases hfind : getInviteCodeByID st id with
  | none => left; rfl
  | some c => right; rfl

theorem create_shape (st : Store) (userID : Nat) (req : CreateInviteCodeRequest)
    (fuel : Nat) (rand : List (List Nat)) (dbOk : Bool) :
    (handleCreateInviteCode st userID req fuel rand dbOk).2 = st ∨
    ∃ code, (generateInviteCode fuel rand st).1 = some code ∧ createReqValid req = true ∧
      (handleCreateInviteCode st userID req fuel rand dbOk).2 =
        { st with codes := st.codes ++
            [⟨nextCodeId st, code, userID, statusActive, req.maxUses, 0, req.description, false⟩] } := by
  unfold handleCreateInviteCode createInviteCode
  by_cases hvv : createReqValid req = true
  · rw [if_neg (by simp [hvv])]
    cases hgen : (generateInviteCode fuel rand st).1 with
    | none => left; rfl
    | some code =>
        cases dbOk with
        | false => left; rfl
        | true => right; exact ⟨code, rfl, hvv, rfl⟩
  · left
    rw [if_pos (by simp [hvv])]

/-- The claimed count invariant: `0 ≤ usedCount ≤ maxUses` for every
stored invite-code row. -/
def CountInv (st : Store) : Prop :=
  ∀ c ∈ st.codes, 0 ≤ c.usedCount ∧ c.usedCount ≤ c.maxUses

theorem countInv_applyOp (st : Store) (op : Op) (h : CountInv st) :
    CountInv (applyOp st op) := by
  cases op with
  | create userID req fuel rand dbOk =>
      show CountInv (handleCreateInviteCode st userID req fuel rand dbOk).2
      rcases create_shape st userID req fuel rand dbOk with hs | ⟨code, hgen, hvv, hs⟩
      · rw [hs]; exact h
      · rw [hs]
        intro c hc
        rcases List.mem_append.mp hc with hold | hnew
        · exact h c hold
        · have hc2 : c = ⟨nextCodeId st, code, userID, statusActive, req.maxUses, 0,
              req.description, false⟩ := by simpa using hnew
          have hone : 1 ≤ req.maxUses := by
            unfold createReqValid at hvv
            simp only [Bool.and_eq_true, decide_eq_true_eq] at hvv
            exact hvv.1.1
          rw [hc2]
          refine ⟨le_refl 0, ?_⟩
          show (0 : Int) ≤ req.maxUses
          omega
  | redeem code userID ip ua saveOk createOk commitOk =>
      show CountInv (useInviteCode st code userID ip ua saveOk createOk commitOk).2
      obtain ⟨h1, h2⟩ := useInviteCode_spec st code userID ip ua saveOk createOk commitOk
      cases hr : (useInviteCode st code userID ip ua saveOk createOk commitOk).1 with
      | error e => rw [h1 e hr]; exact h
      | ok c2 =>
          obtain ⟨c0, hval, hid, hcode, hmax, hdel, hcnt, hstat, hs⟩ := h2 c2 hr
          rw [hs]
          intro x hx
          rcases mem_replaceCode hx with ⟨y, hy, hxy⟩
          by_cases hyid : y.id == c2.id
          · rw [if_pos hyid] at hxy
            have hvv := validate_ok hval
            have h0 := h c0 hvv.2.1
            have hlt : c0.usedCount < c0.maxUses := hvv.2.2.2.2.2
            rw [hxy]
            constructor
            · rw [hcnt]; omega
            · rw [hcnt, hmax]; omega
          · rw [if_neg hyid] at hxy
            exact hxy ▸ h y hy
  | setStatus user id status dbOk =>
      show CountInv (handleUpdateInviteCodeStatus st user id status dbOk).2
      rcases handleUpdate_shape st user id status dbOk with hs | ⟨c, hcmem, hdel, hvv, hs⟩
      · rw [hs]; exact h
      · rw [hs]
        intro x hx
        rcases mem_replaceCode hx with ⟨y, hy, hxy⟩
        by_cases hyid : y.id == ({ c with status := status } : InviteCode).id
        · rw [if_pos hyid] at hxy
          rw [hxy]
          exact h c hcmem
        · rw [if_neg hyid] at hxy
          exact hxy ▸ h y hy
  | remove id =>
      show CountInv (deleteInviteCode st id).2
      rcases delete_shape st id with hs | hs
      · rw [hs]; exact h
      · rw [hs]
        intro x hx
        obtain ⟨y, hy, hxy⟩ := List.mem_map.mp hx
        have h0 := h y hy
        rw [← hxy]
        split
        · exact h0
        · exact h0

theorem applyOps_inv {P : Store → Prop}
    (hstep : ∀ st op, P st → P (applyOp st op)) :
    ∀ (ops : List Op) (st : Store), P st → P (applyOps st ops) := by
  intro ops
  induction ops with
  | nil => intro st h; exact h
  | cons op ops ih =>
      intro st h
      exact ih (applyOp st op) (hstep st op h)

/-- **C3**: starting from the empty store, after any sequence of core
operations (handler-validated create, redeem, status update through the
endpoint, soft delete), every stored invite-code row satisfies
`0 ≤ usedCount ≤ maxUses`; and immediately after any successful
redemption the returned (and saved) row satisfies
`status = used ↔ usedCount = maxUses` — in particular no redemption
leaves a code at `usedCount = maxUses` with status still `active`. -/
theorem invite_code_invariants :
    (∀ ops : List Op, ∀ c ∈ (applyOps Store.empty ops).codes,
      0 ≤ c.usedCount ∧ c.usedCount ≤ c.maxUses) ∧
    (∀ st code userID ip ua saveOk createOk commitOk c2,
      (useInviteCode st code userID ip ua saveOk createOk commitOk).1 = .ok c2 →
      (c2.status = statusUsed ↔ c2.usedCount = c2.maxUses)) := by
  constructor
  · intro ops
    exact applyOps_inv countInv_applyOp ops Store.empty (fun c hc => absurd hc (by simp [Store.empty]))
  · intro st code userID ip ua saveOk createOk commitOk c2 hr
    obtain ⟨_, h2⟩ := useInviteCode_spec st code userID ip ua saveOk createOk commitOk
    obtain ⟨c0, hval, hid, hcode, hmax, hdel, hcnt, hstat, hs⟩ := h2 c2 hr
    have hvv := validate_ok hval
    have hlt : c0.usedCount < c0.maxUses := hvv.2.2.2.2.2
    have hact : c0.status = statusActive := hvv.2.2.2.2.1
    by_cases hreach : c0.usedCount + 1 ≥ c0.maxUses
    · constructor
      · intro _
        rw [hcnt, hmax]
        omega
      · intro _
        rw [hstat, if_pos hreach]
    · constructor
      · intro hcontra
        rw [hstat, if_neg hreach, hact] at hcontra
        exact absurd hcontra (by decide)
      · intro hcount
        exfalso
        rw [hcnt, hmax] at hcount
        omega

/-- Witness for `invite_code_invariants`: a freshly created code
satisfies the count bounds, and redeeming the last use of a single-use
code yields a row with `status = used` and `usedCount = maxUses`. -/
theorem invite_code_invariants_witness :
    (0 ≤ (⟨1, "00000000000000000000000000000000", 7, statusActive, 1, 0, "x", false⟩ : InviteCode).usedCount ∧
      (⟨1, "00000000000000000000000000000000", 7, statusActive, 1, 0, "x", false⟩ : InviteCode).usedCount ≤
        (⟨1, "00000000000000000000000000000000", 7, statusActive, 1, 0, "x", false⟩ : InviteCode).maxUses) ∧
    ((⟨1, "c", 7, statusUsed, 1, 1, "", false⟩ : InviteCode).status = statusUsed ↔
      (⟨1, "c", 7, statusUsed, 1, 1, "", false⟩ : InviteCode).usedCount =
        (⟨1, "c", 7, statusUsed, 1, 1, "", false⟩ : InviteCode).maxUses) :=
  ⟨invite_code_invariants.1 [Op.create 7 ⟨1, "x"⟩ 1 [List.replicate 16 0] true]
      ⟨1, "00000000000000000000000000000000", 7, statusActive, 1, 0, "x", false⟩ (by decide),
   invite_code_invariants.2 ⟨[⟨1, "c", 7, statusActive, 1, 0, "", false⟩], [], []⟩
      "c" 8 "ip" "ua" true true true ⟨1, "c", 7, statusUsed, 1, 1, "", false⟩ rfl⟩

/-- The number of usage-ledger rows referencing invite code `id`. -/
def usageCountFor (usages : List Usage) (id : Nat) : Nat :=
  (usages.filter (fun u => u.inviteCodeID == id)).length

theorem usageCountFor_append (l1 l2 : List Usage) (id : Nat) :
    usageCountFor (l1 ++ l2) id = usageCountFor l1 id + usageCountFor l2 id := by
  unfold usageCountFor
  rw [List.filter_append, List.length_append]

theorem usageCountFor_single (u : Usage) (id : Nat) :
    usageCountFor [u] id = if u.inviteCodeID = id then 1 else 0 := by
  unfold usageCountFor
  by_cases h : u.inviteCodeID = id
  · simp [h]
  · simp [h]

/-- The structural well-formedness making the ledger invariant
inductive: row ids are exactly `1..n` (auto-increment over rows that are
never physically deleted), every ledger entry references an existing
row, and every row's `usedCount` equals its ledger count. -/
def LedgerWF (st : Store) : Prop :=
  st.codes.map (fun c => c.id) = List.range' 1 st.codes.length ∧
  (∀ u ∈ st.usages, u.inviteCodeID ∈ st.codes.map (fun c => c.id)) ∧
  (∀ c ∈ st.codes, (usageCountFor st.usages c.id : Int) = c.usedCount)

theorem map_id_softDelete (l : List InviteCode) (id : Nat) :
    (l.map (fun x => if x.id == id && !x.deleted then { x with deleted := true } else x)).map
        (fun x => x.id) = l.map (fun x => x.id) := by
  rw [List.map_map]
  apply List.map_congr_left
  intro a _
  show (if a.id == id && !a.deleted then ({ a with deleted := true } : InviteCode) else a).id = a.id
  split <;> rfl

theorem ids_append_fresh {codes : List InviteCode} (newc : InviteCode)
    (hids : codes.map (fun c => c.id) = List.range' 1 codes.length)
    (hnew : newc.id = codes.length + 1) :
    (codes ++ [newc]).map (fun c => c.id) = List.range' 1 (codes ++ [newc]).length := by
  rw [List.map_append, hids, List.length_append]
  simp [List.range'_concat, hnew, Nat.add_comm]

theorem ledgerWF_applyOp (st : Store) (op : Op) (h : LedgerWF st) :
    LedgerWF (applyOp st op) := by
  obtain ⟨hids, hrefs, hcnts⟩ := h
  cases op with
  | create userID req fuel rand dbOk =>
      show LedgerWF (handleCreateInviteCode st userID req fuel rand dbOk).2
      rcases create_shape st userID req fuel rand dbOk with hs | ⟨code, hgen, hvv, hs⟩
      · rw [hs]; exact ⟨hids, hrefs, hcnts⟩
      · rw [hs]
        refine ⟨?_, ?_, ?_⟩
        · exact ids_append_fresh _ hids rfl
        · intro u hu
          rw [List.map_append]
          exact List.mem_append_left _ (hrefs u hu)
        · intro c hc
          rcases List.mem_append.mp hc with hold | hnew
          · exact hcnts c hold
          · have hc2 : c = ⟨nextCodeId st, code, userID, statusActive, req.maxUses, 0,
                req.description, false⟩ := by simpa using hnew
            rw [hc2]
            have hzero : usageCountFor st.usages (nextCodeId st) = 0 := by
              unfold usageCountFor
              rw [List.length_eq_zero, List.filter_eq_nil_iff]
              intro u hu
              have hmem := hrefs u hu
              rw [hids] at hmem
              simp only [List.mem_range'_1] at hmem
              simp only [beq_iff_eq, Bool.not_eq_true]
              unfold nextCodeId
              omega
            show (usageCountFor st.usages (nextCodeId st) : Int) = (0 : Int)
            rw [hzero]
            rfl
  | redeem code userID ip ua saveOk createOk commitOk =>
      show LedgerWF (useInviteCode st code userID ip ua saveOk createOk commitOk).2
      obtain ⟨h1, h2⟩ := useInviteCode_spec st code userID ip ua saveOk createOk commitOk
      cases hr : (useInviteCode st code userID ip ua saveOk createOk commitOk).1 with
      | error e => rw [h1 e hr]; exact ⟨hids, hrefs, hcnts⟩
      | ok c2 =>
          obtain ⟨c0, hval, hid, hcode, hmax, hdel, hcnt, hstat, hs⟩ := h2 c2 hr
          have hc0mem : c0 ∈ st.codes := (validate_ok hval).2.1
          have hlen : (replaceCode st.codes c2).length = st.codes.length := by
            unfold replaceCode; rw [List.length_map]
          rw [hs]
          refine ⟨?_, ?_, ?_⟩
          · show (replaceCode st.codes c2).map (fun c => c.id) = _
            rw [map_id_replaceCode, hlen, hids]
          · intro u hu
            rcases List.mem_append.mp hu with hold | hnew
            · rw [map_id_replaceCode]
              exact hrefs u hold
            · have hu2 : u = ⟨c2.id, userID, ip, ua⟩ := by simpa using hnew
              rw [hu2, map_id_replaceCode]
              show c2.id ∈ _
              rw [hid]
              exact List.mem_map_of_mem (fun c => c.id) hc0mem
          · intro x hx
            rcases mem_replaceCode hx with ⟨y, hy, hxy⟩
            by_cases hyid : y.id == c2.id
            · rw [if_pos hyid] at hxy
              rw [hxy]
              rw [usageCountFor_append, usageCountFor_single]
              rw [if_pos rfl]
              have hbase := hcnts c0 hc0mem
              rw [hid, hcnt]
              push_cast
              push_cast at hbase
              omega
            · rw [if_neg hyid] at hxy
              rw [hxy]
              rw [usageCountFor_append, usageCountFor_single]
              have hne : ¬((⟨c2.id, userID, ip, ua⟩ : Usage).inviteCodeID = y.id) := by
                show ¬c2.id = y.id
                intro hcontra
                exact hyid (beq_iff_eq.mpr hcontra.symm)
              rw [if_neg hne]
              have hbase := hcnts y hy
              push_cast
              push_cast at hbase
              omega
  | setStatus user id status dbOk =>
      show LedgerWF (handleUpdateInviteCodeStatus st user id status dbOk).2
      rcases handleUpdate_shape st user id status dbOk with hs | ⟨c, hcmem, hcdel, hvv, hs⟩
      · rw [hs]; exact ⟨hids, hrefs, hcnts⟩
      · have hlen : (replaceCode st.codes { c with status := status }).length = st.codes.length := by
          unfold replaceCode; rw [List.length_map]
        rw [hs]
        refine ⟨?_, ?_, ?_⟩
        · show (replaceCode st.codes { c with status := status }).map (fun x => x.id) = _
          rw [map_id_replaceCode, hlen, hids]
        · intro u hu
          rw [map_id_replaceCode]
          exact hrefs u hu
        · intro x hx
          rcases mem_replaceCode hx with ⟨y, hy, hxy⟩
          by_cases hyid : y.id == ({ c with status := status } : InviteCode).id
          · rw [if_pos hyid] at hxy
            rw [hxy]
            exact hcnts c hcmem
          · rw [if_neg hyid] at hxy
            rw [hxy]
            exact hcnts y hy
  | remove id =>
      show LedgerWF (deleteInviteCode st id).2
      rcases delete_shape st id with hs | hs
      · rw [hs]; exact ⟨hids, hrefs, hcnts⟩
      · rw [hs]
        refine ⟨?_, ?_, ?_⟩
        · show (st.codes.map fun x =>
              if x.id == id && !x.deleted then { x with deleted := true } else x).map
                (fun x => x.id) = _
          rw [map_id_softDelete, List.length_map, hids]
        · intro u hu
          rw [map_id_softDelete]
          exact hrefs u hu
        · intro x hx
          obtain ⟨y, hy, hxy⟩ := List.mem_map.mp hx
          have hidxy : x.id = y.id := by rw [← hxy]; split <;> rfl
          have hcntxy : x.usedCount = y.usedCount := by rw [← hxy]; split <;> rfl
          rw [hidxy, hcntxy]
          exact hcnts y hy

/-- **C8**: ledger completeness.  Starting from the empty store, after
any sequence of completed core operations, the number of usage-ledger
rows whose `inviteCodeID` references a stored invite code equals that
code's `usedCount`. -/
theorem ledger_matches_usedCount (ops : List Op) :
    ∀ c ∈ (applyOps Store.empty ops).codes,
      (((applyOps Store.empty ops).usages.filter
          (fun u => u.inviteCodeID == c.id)).length : Int) = c.usedCount := by
  have h := applyOps_inv ledgerWF_applyOp ops Store.empty
    ⟨rfl, fun u hu => absurd hu (by simp [Store.empty]),
      fun c hc => absurd hc (by simp [Store.empty])⟩
  exact h.2.2

/-- Witness for `ledger_matches_usedCount`: create one single-use code
and redeem it; the resulting row has `usedCount = 1` and exactly one
ledger entry references it. -/
theorem ledger_matches_usedCount_witness :
    (((applyOps Store.empty
        [Op.create 7 ⟨1, "x"⟩ 1 [List.replicate 16 0] true,
         Op.redeem "00000000000000000000000000000000" 8 "ip" "ua" true true true]).usages.filter
        (fun u => u.inviteCodeID ==
          (⟨1, "00000000000000000000000000000000", 7, statusUsed, 1, 1, "x", false⟩ : InviteCode).id)).length : Int) =
      (⟨1, "00000000000000000000000000000000", 7, statusUsed, 1, 1, "x", false⟩ : InviteCode).usedCount :=
  ledger_matches_usedCount
    [Op.create 7 ⟨1, "x"⟩ 1 [List.replicate 16 0] true,
     Op.redeem "00000000000000000000000000000000" 8 "ip" "ua" true true true]
    ⟨1, "00000000000000000000000000000000", 7, statusUsed, 1, 1, "x", false⟩ (by decide)
